import Mathlib

/-!
Verification of the Tabular Container described by the data-wrangling
notebook's specification: a table of named columns with row append,
accessors, delimited-text serialization, plain-text file modes, and
strict/tolerant numeric grid readers.
-/

set_option autoImplicit false

namespace DataWrangling

/-- Error taxonomy of the tabular container (spec section 7). -/
inductive Err where
  | NotFound
  | IndexOutOfRange
  | DimensionMismatch
  | MalformedInput
  | IOFailure
deriving DecidableEq

/-- Cell values: integers, finite decimals (`dec m e` denotes `m / 10^e`),
text, and an explicit per-cell missing marker. -/
inductive Value where
  | int (n : Int)
  | dec (m : Int) (e : Nat)
  | text (s : String)
  | missing
deriving DecidableEq

/-- Modelled from the spec: the table object demonstrated in the notebook is
implemented by external libraries (astropy `Table`, pandas `DataFrame`), not
by this repository; per the spec a Table is an ordered mapping from column
name to column, columns being ordered sequences of values. -/
structure Table where
  cols : List (String × List Value)
deriving DecidableEq

/-- Modelled from the spec: the implicit row count shared by all columns
(the length of the first column, `0` for a table with no columns). -/
def Table.rowCount (t : Table) : Nat :=
  match t.cols with
  | [] => 0
  | c :: _ => c.2.length

/-- Rectangularity invariant: every column has length equal to the row count. -/
def Table.rect (t : Table) : Prop :=
  ∀ c ∈ t.cols, c.2.length = t.rowCount

instance (t : Table) : Decidable t.rect :=
  inferInstanceAs (Decidable (∀ c ∈ t.cols, c.2.length = t.rowCount))

/-- Replace the column named `name` if present, otherwise add it at the end. -/
def setCol (cols : List (String × List Value)) (name : String)
    (vals : List Value) : List (String × List Value) :=
  match cols with
  | [] => [(name, vals)]
  | c :: rest => if c.1 = name then (name, vals) :: rest
                 else c :: setCol rest name vals

/-- Modelled from the spec: `setColumn(name, values)` — the column-assignment
operation of the external table libraries. The length of `values` must equal
the current row count unless the table has zero columns (which establishes
the row count); otherwise the operation fails with `DimensionMismatch`. -/
def Table.setColumn (t : Table) (name : String) (vals : List Value) :
    Except Err Table :=
  match t.cols with
  | [] => .ok ⟨[(name, vals)]⟩
  | _ :: _ =>
    if vals.length = t.rowCount then .ok ⟨setCol t.cols name vals⟩
    else .error .DimensionMismatch

/-- Modelled from the spec: `appendRow(values)` — the external libraries'
`add_row`. The tuple must have one value per existing column, in column
order; then each column gains one value at the end, otherwise the operation
fails with `DimensionMismatch` and the table is unchanged. -/
def Table.appendRow (t : Table) (vals : List Value) : Except Err Table :=
  if vals.length = t.cols.length then
    .ok ⟨(t.cols.zip vals).map (fun p => (p.1.1, p.1.2 ++ [p.2]))⟩
  else .error .DimensionMismatch

/-- First column of the given name, if any. -/
def lookupCol (cols : List (String × List Value)) (name : String) :
    Option (List Value) :=
  match cols with
  | [] => none
  | c :: rest => if c.1 = name then some c.2 else lookupCol rest name

/-- Modelled from the spec: `getColumn(name)` as a call on the table state —
returns the named column's sequence together with the (unchanged) table;
fails with `NotFound` if the name is absent. -/
def Table.getColumnS (t : Table) (name : String) :
    Except Err (List Value) × Table :=
  match lookupCol t.cols name with
  | some vs => (.ok vs, t)
  | none => (.error .NotFound, t)

/-- Result component of `getColumnS`. -/
def Table.getColumn (t : Table) (name : String) : Except Err (List Value) :=
  (t.getColumnS name).1

/-- Select the named columns in the requested order; `none` if any is absent. -/
def selectCols (cols : List (String × List Value)) :
    List String → Option (List (String × List Value))
  | [] => some []
  | n :: ns =>
    match lookupCol cols n, selectCols cols ns with
    | some vs, some rest => some ((n, vs) :: rest)
    | _, _ => none

/-- Modelled from the spec: `getColumns(names)` as a call on the table
state — returns the narrowed table of exactly the requested columns in the
requested order together with the (unchanged) table; fails with `NotFound`
if any name is absent. -/
def Table.getColumnsS (t : Table) (names : List String) :
    Except Err Table × Table :=
  match selectCols t.cols names with
  | some cs => (.ok ⟨cs⟩, t)
  | none => (.error .NotFound, t)

/-- Result component of `getColumnsS`. -/
def Table.getColumns (t : Table) (names : List String) : Except Err Table :=
  (t.getColumnsS names).1

/-- Modelled from the spec: `getRow(index)` as a call on the table state —
for `index` in `[0, rowCount)` returns the ordered tuple of values at that
position across all columns, together with the (unchanged) table; otherwise
fails with `IndexOutOfRange`. -/
def Table.getRowS (t : Table) (i : Int) :
    Except Err (List Value) × Table :=
  if 0 ≤ i ∧ i < (t.rowCount : Int) then
    (.ok (t.cols.map (fun c => c.2.getD i.toNat .missing)), t)
  else (.error .IndexOutOfRange, t)

/-- Result component of `getRowS`. -/
def Table.getRow (t : Table) (i : Int) : Except Err (List Value) :=
  (t.getRowS i).1

/-- A mutating operation on a table: column assignment or row append. -/
inductive Op where
  | set (name : String) (vals : List Value)
  | append (vals : List Value)

/-- Apply one operation; a failing operation leaves the table unchanged. -/
def Table.applyOp (t : Table) (op : Op) : Table :=
  match op with
  | .set n vs =>
    match t.setColumn n vs with
    | .ok t2 => t2
    | .error _ => t
  | .append vs =>
    match t.appendRow vs with
    | .ok t2 => t2
    | .error _ => t

/-- Run a sequence of mutating operations. -/
def Table.run (t : Table) (ops : List Op) : Table :=
  ops.foldl Table.applyOp t

/-! ### Plain-text file modes -/

/-- Mode in which a plain text file is opened. -/
inductive Mode where
  | read
  | write
  | append

/-- A plain text file, identified with its contents. -/
structure TextFile where
  contents : String
deriving DecidableEq

/-- Modelled from the spec: `open(path, mode)` of the runtime library is not
in the repository; opening in write mode truncates the existing file,
opening in read or append mode leaves its contents untouched. -/
def openMode (f : TextFile) (m : Mode) : TextFile :=
  match m with
  | .write => ⟨""⟩
  | .read => f
  | .append => f

/-- Modelled from the spec: writing to an open file puts the new data at the
end of the current contents. -/
def writeStr (f : TextFile) (s : String) : TextFile :=
  ⟨f.contents ++ s⟩

/-! ### Rendering and parsing of cell values

The delimited text formats are modelled one level above raw bytes: a file is
a list of lines, each line already split at the delimiter into a list of
token strings.  Rendering and parsing of the individual tokens is modelled
in full. -/

/-- The character for a single decimal digit (`d < 10`). -/
def digitChar (d : Nat) : Char :=
  match d with
  | 0 => '0'
  | 1 => '1'
  | 2 => '2'
  | 3 => '3'
  | 4 => '4'
  | 5 => '5'
  | 6 => '6'
  | 7 => '7'
  | 8 => '8'
  | _ => '9'

/-- The value of a decimal digit character. -/
def charVal (c : Char) : Nat :=
  match c with
  | '0' => 0
  | '1' => 1
  | '2' => 2
  | '3' => 3
  | '4' => 4
  | '5' => 5
  | '6' => 6
  | '7' => 7
  | '8' => 8
  | _ => 9

/-- Decimal digits of `n`, most significant first, with explicit fuel so the
recursion is structural. -/
def renderNatAux : Nat → Nat → List Char
  | 0, _ => []
  | fuel + 1, n =>
    if n = 0 then [] else renderNatAux fuel (n / 10) ++ [digitChar (n % 10)]

/-- Decimal representation of a natural number. -/
def renderNat (n : Nat) : List Char :=
  if n = 0 then ['0'] else renderNatAux n n

/-- Numeric value of a list of digit characters, most significant first. -/
def parseNatCore (cs : List Char) : Nat :=
  cs.foldl (fun acc c => acc * 10 + charVal c) 0

/-- A nonempty all-digit token. -/
def isDigits (cs : List Char) : Bool :=
  !cs.isEmpty && cs.all Char.isDigit

/-- Decimal representation of an integer (a leading minus when negative). -/
def renderInt (n : Int) : List Char :=
  if n < 0 then '-' :: renderNat n.natAbs else renderNat n.natAbs

/-- Split a token at its unique decimal point, if it has exactly one. -/
def splitDot : List Char → Option (List Char × List Char)
  | [] => none
  | c :: rest =>
    if c = '.' then
      if '.' ∈ rest then none else some ([], rest)
    else (splitDot rest).map (fun p => (c :: p.1, p.2))

/-- Pad a digit string with leading zeros up to length `k`. -/
def padZeros (cs : List Char) (k : Nat) : List Char :=
  List.replicate (k - cs.length) '0' ++ cs

/-- Decimal-point representation of `m / 10^e`, with `e` fractional digits
and at least one integer digit. -/
def renderDec (m : Int) (e : Nat) : List Char :=
  let ds := padZeros (renderNat m.natAbs) (e + 1)
  (if m < 0 then ['-'] else []) ++
    ds.take (ds.length - e) ++ '.' :: ds.drop (ds.length - e)

/-- Strip one leading minus sign, reporting whether it was present. -/
def stripSign (cs : List Char) : Bool × List Char :=
  match cs with
  | [] => (false, [])
  | c :: rest => if c = '-' then (true, rest) else (false, c :: rest)

/-- Apply a sign flag to a parsed magnitude. -/
def applySign (neg : Bool) (n : Nat) : Int :=
  if neg then -(n : Int) else (n : Int)

/-- Classify a sign-stripped token body: an all-digit body is an integer, a
pair of digit groups around one decimal point is a decimal, anything else is
the original text. -/
def classifyBody (s : String) (neg : Bool) (body : List Char) : Value :=
  if isDigits body then .int (applySign neg (parseNatCore body))
  else
    match splitDot body with
    | some q =>
      if isDigits q.1 && isDigits q.2 then
        .dec (applySign neg (parseNatCore q.1 * 10 ^ q.2.length + parseNatCore q.2))
          q.2.length
      else .text s
    | none => .text s

/-- Classify one token: an optionally signed all-digit token is an integer,
an optionally signed pair of digit groups around one decimal point is a
decimal, anything else is text. -/
def parseToken (s : String) : Value :=
  classifyBody s (stripSign s.data).1 (stripSign s.data).2

/-- Modelled from the spec: the stable, round-trippable text representation
of a cell; a missing cell is rendered as the empty token. -/
def renderValue : Value → String
  | .int n => ⟨renderInt n⟩
  | .dec m e => ⟨renderDec m e⟩
  | .text s => s
  | .missing => ""

/-- Parse one cell of a delimited table file: the empty token is the
explicit missing marker, otherwise the token is classified by `parseToken`. -/
def parseCell (s : String) : Value :=
  if s = "" then .missing else parseToken s

/-- Cell values whose rendering parses back to themselves: decimals carry at
least one fractional digit, and text is nonempty and not shaped like a
number. -/
def wfValue : Value → Bool
  | .dec _ e => decide (0 < e)
  | .text s => decide (s ≠ "") && decide (parseToken s = .text s)
  | _ => true

/-! ### Delimited-table serialization -/

/-- Modelled from the spec: `write` serializes the table with the column
names as a header line and one row per line in row order, each cell rendered
by the stable text representation. -/
def Table.write (t : Table) : List (List String) :=
  t.cols.map Prod.fst ::
    (List.range t.rowCount).map
      (fun i => t.cols.map (fun c => renderValue (c.2.getD i .missing)))

/-- Modelled from the spec: `read` parses a delimited table file; the header
line becomes the column names and each further line one row; a file whose
rows do not all match the header width is a `MalformedInput` error. -/
def Table.read (file : List (List String)) : Except Err Table :=
  match file with
  | [] => .error .MalformedInput
  | header :: rows =>
    if rows.all (fun r => r.length = header.length) then
      .ok ⟨(List.range header.length).map
        (fun j => (header.getD j "", rows.map (fun r => parseCell (r.getD j ""))))⟩
    else .error .MalformedInput

/-! ### Strict and tolerant numeric grid readers -/

/-- Modelled from the spec: the strict delimited numeric reader (the
notebook's `np.loadtxt` is library code): it requires a fully rectangular
grid of numeric tokens and fails with `MalformedInput` on irregular rows or
non-numeric tokens. -/
def strictRead (file : List (List String)) : Except Err (List (List Value)) :=
  match file with
  | [] => .ok []
  | r0 :: _ =>
    if file.all (fun r => r.length = r0.length) then
      file.mapM (fun r => r.mapM (fun s =>
        match parseToken s with
        | .int n => .ok (.int n)
        | .dec m e => .ok (.dec m e)
        | _ => (.error .MalformedInput : Except Err Value)))
    else .error .MalformedInput

/-- Width of a grid: the longest row length. -/
def gridWidth (file : List (List String)) : Nat :=
  (file.map List.length).foldr max 0

/-- Modelled from the spec: the tolerant delimited numeric reader (the
notebook's `np.genfromtxt` is library code): with a declared missing-value
token it never fails; the declared token, any non-numeric token, and the
tail cells of short rows all become explicit missing markers. -/
def tolerantRead (miss : String) (file : List (List String)) :
    List (List Value) :=
  (file.map (fun r =>
    (List.range (gridWidth file)).map (fun j =>
      if h : j < r.length then
        let s := r.get ⟨j, h⟩
        if s = miss then .missing
        else
          match parseToken s with
          | .int n => .int n
          | .dec m e => .dec m e
          | _ => .missing
      else .missing)))

/-- The notebook's running example: three columns assigned to an empty
table, then one appended row. -/
def exampleTable : Except Err Table :=
  (Table.mk []).setColumn "name" [.text "alpha", .text "beta", .text "gamma"] >>= fun t =>
  t.setColumn "mass" [.dec 21 1, .dec 23 1, .dec 42 1] >>= fun t =>
  t.setColumn "temp" [.int 6000, .int 2323, .int 233] >>= fun t =>
  t.appendRow [.text "delta", .dec 63 1, .int 10002]

/-! ## Helper lemmas -/

theorem zipAppend_fst (cols : List (String × List Value)) (vals : List Value)
    (h : vals.length = cols.length) :
    ((cols.zip vals).map (fun p => (p.1.1, p.1.2 ++ [p.2]))).map Prod.fst
      = cols.map Prod.fst := by
  induction cols generalizing vals with
  | nil => simp
  | cons c cs ih =>
    cases vals with
    | nil => simp at h
    | cons v vs =>
      simp only [List.length_cons, Nat.succ.injEq] at h
      simp [List.zip_cons_cons, ih vs h]

theorem zipAppend_len (cols : List (String × List Value)) (vals : List Value)
    (h : vals.length = cols.length) :
    ((cols.zip vals).map (fun p => (p.1.1, p.1.2 ++ [p.2]))).map (fun c => c.2.length)
      = cols.map (fun c => c.2.length + 1) := by
  induction cols generalizing vals with
  | nil => simp
  | cons c cs ih =>
    cases vals with
    | nil => simp at h
    | cons v vs =>
      simp only [List.length_cons, Nat.succ.injEq] at h
      simp [List.zip_cons_cons, ih vs h]

/-! ## Claim theorems -/

/-- C8: for plain text files, opening in write mode truncates any existing
file before writing, so the written data replaces the previous contents,
while opening in append mode preserves all existing content and writes the
new data at the end of the file. -/
theorem write_truncates_append_preserves (f : TextFile) (s : String) :
    (openMode f .write).contents = "" ∧
    (writeStr (openMode f .write) s).contents = s ∧
    (writeStr (openMode f .append) s).contents = f.contents ++ s := by
  refine ⟨rfl, ?_, rfl⟩
  show "" ++ s = s
  rfl

/-- C10: the read-only accessors `getColumn`, `getColumns` and `getRow`
leave the table completely unchanged, whether they succeed or fail: the
table component of each call's result is the original table, hence column
names, row count and all cell values are untouched. -/
theorem accessors_leave_table_unchanged (t : Table) (name : String)
    (names : List String) (i : Int) :
    (t.getColumnS name).2 = t ∧ (t.getColumnsS names).2 = t ∧
      (t.getRowS i).2 = t := by
  refine ⟨?_, ?_, ?_⟩
  · unfold Table.getColumnS
    cases lookupCol t.cols name <;> rfl
  · unfold Table.getColumnsS
    cases selectCols t.cols names <;> rfl
  · unfold Table.getRowS
    split <;> rfl

/-- C7: starting from an empty table, after assigning the `name`, `mass`
and `temp` columns and appending the row `("delta", 6.3, 10002)`, the row
count is `4` and row `3` is `("delta", 6.3, 10002)`. -/
theorem exampleTable_spec :
    exampleTable.map Table.rowCount = .ok 4 ∧
    (exampleTable >>= fun t => t.getRow 3)
      = .ok [.text "delta", .dec 63 1, .int 10002] :=
  ⟨rfl, rfl⟩

/-- C2: `appendRow` with one value per existing column succeeds and gives
every column exactly one more value (preserving the column names); with any
other tuple length it fails with `DimensionMismatch` and the table is left
completely unchanged — no partial row is ever added. -/
theorem appendRow_atomic (t : Table) (vals : List Value) :
    (vals.length = t.cols.length →
      ∃ t2, t.appendRow vals = .ok t2 ∧
        t2.cols.map Prod.fst = t.cols.map Prod.fst ∧
        t2.cols.map (fun c => c.2.length) = t.cols.map (fun c => c.2.length + 1)) ∧
    (vals.length ≠ t.cols.length →
      t.appendRow vals = .error .DimensionMismatch ∧
        t.applyOp (.append vals) = t) := by
  constructor
  · intro h
    refine ⟨⟨(t.cols.zip vals).map (fun p => (p.1.1, p.1.2 ++ [p.2]))⟩, ?_, ?_, ?_⟩
    · simp [Table.appendRow, h]
    · exact zipAppend_fst t.cols vals h
    · exact zipAppend_len t.cols vals h
  · intro h
    have he : t.appendRow vals = .error .DimensionMismatch := by
      simp [Table.appendRow, h]
    exact ⟨he, by simp [Table.applyOp, he]⟩

/-- Closed witness for `appendRow_atomic` at a concrete table and tuple. -/
theorem appendRow_atomic_witness :
    ∃ t2, Table.appendRow ⟨[("a", [.int 1]), ("b", [.text "x"])]⟩
        [.int 2, .text "y"] = .ok t2 ∧
      t2.cols.map Prod.fst
        = (Table.mk [("a", [.int 1]), ("b", [.text "x"])]).cols.map Prod.fst ∧
      t2.cols.map (fun c => c.2.length)
        = (Table.mk [("a", [.int 1]), ("b", [.text "x"])]).cols.map
            (fun c => c.2.length + 1) :=
  (appendRow_atomic ⟨[("a", [.int 1]), ("b", [.text "x"])]⟩
    [.int 2, .text "y"]).1 (by decide)

theorem lookup_setCol (cols : List (String × List Value)) (name : String)
    (vals : List Value) :
    lookupCol (setCol cols name vals) name = some vals := by
  induction cols with
  | nil => simp [setCol, lookupCol]
  | cons c cs ih =>
    by_cases h : c.1 = name
    · simp [setCol, h, lookupCol]
    · simp [setCol, h, lookupCol, ih]

/-- C5: `getRow(i)` for `i` outside `[0, rowCount)` always fails with
`IndexOutOfRange` and never returns a value; for `i` inside the range it
returns the ordered tuple holding, for each column, the value at position
`i` of that column. -/
theorem getRow_bounds (t : Table) (i : Int) :
    (¬ (0 ≤ i ∧ i < (t.rowCount : Int)) →
      t.getRow i = .error .IndexOutOfRange) ∧
    (t.rect → 0 ≤ i → i < (t.rowCount : Int) →
      ∃ r, t.getRow i = .ok r ∧ r.length = t.cols.length ∧
        ∀ (j : Nat) (c : String × List Value),
          t.cols[j]? = some c → r[j]? = c.2[i.toNat]?) := by
  constructor
  · intro h
    simp [Table.getRow, Table.getRowS, h]
  · intro hrect h0 hi
    refine ⟨t.cols.map (fun c => c.2.getD i.toNat .missing), ?_, by simp, ?_⟩
    · simp [Table.getRow, Table.getRowS, h0, hi]
    · intro j c hc
      have hmem : c ∈ t.cols := List.getElem?_mem hc
      have hlen : c.2.length = t.rowCount := hrect c hmem
      have hlt : i.toNat < c.2.length := by omega
      rw [List.getElem?_map, hc]
      simp [List.getD_eq_getElem _ _ hlt, List.getElem?_eq_getElem hlt]

/-- Closed witness for `getRow_bounds`: an out-of-range index fails, an
in-range index returns the row. -/
theorem getRow_bounds_witness :
    Table.getRow ⟨[("a", [.int 1, .int 2])]⟩ 5 = .error .IndexOutOfRange ∧
    ∃ r, Table.getRow ⟨[("a", [.int 1, .int 2])]⟩ 1 = .ok r ∧
      r.length = (Table.mk [("a", [.int 1, .int 2])]).cols.length ∧
      ∀ (j : Nat) (c : String × List Value),
        (Table.mk [("a", [.int 1, .int 2])]).cols[j]? = some c →
          r[j]? = c.2[(1 : Int).toNat]? :=
  ⟨(getRow_bounds ⟨[("a", [.int 1, .int 2])]⟩ 5).1 (by decide),
   (getRow_bounds ⟨[("a", [.int 1, .int 2])]⟩ 1).2 (by decide) (by decide)
     (by decide)⟩

/-- C6: `setColumn` on a table with zero columns succeeds and establishes
the row count as the length of the assigned values; on a nonempty table it
succeeds (creating or overwriting the named column) exactly when the length
matches the current row count, and fails with `DimensionMismatch` when the
length disagrees with the already-established row count. -/
theorem setColumn_rules (t : Table) (name : String) (vals : List Value) :
    (t.cols = [] → t.setColumn name vals = .ok ⟨[(name, vals)]⟩ ∧
      (Table.mk [(name, vals)]).rowCount = vals.length) ∧
    (t.cols ≠ [] → vals.length = t.rowCount →
      ∃ t2, t.setColumn name vals = .ok t2 ∧
        lookupCol t2.cols name = some vals) ∧
    (t.cols ≠ [] → vals.length ≠ t.rowCount →
      t.setColumn name vals = .error .DimensionMismatch) := by
  obtain ⟨cols⟩ := t
  cases cols with
  | nil =>
    exact ⟨fun _ => ⟨rfl, rfl⟩, fun h => absurd rfl h, fun h => absurd rfl h⟩
  | cons c cs =>
    refine ⟨fun h => by simp at h, ?_, ?_⟩
    · intro _ hlen
      refine ⟨⟨setCol (c :: cs) name vals⟩, ?_, lookup_setCol _ _ _⟩
      simp [Table.setColumn, hlen]
    · intro _ hlen
      simp [Table.setColumn, hlen]

/-- Closed witness for `setColumn_rules`: establishing a row count on an
empty table, matching assignment, and mismatched assignment. -/
theorem setColumn_rules_witness :
    (Table.mk []).setColumn "a" [.int 1, .int 2]
        = .ok ⟨[("a", [.int 1, .int 2])]⟩ ∧
    (∃ t2, (Table.mk [("a", [.int 1, .int 2])]).setColumn "b" [.int 3, .int 4]
        = .ok t2 ∧ lookupCol t2.cols "b" = some [.int 3, .int 4]) ∧
    (Table.mk [("a", [.int 1, .int 2])]).setColumn "b" [.int 3]
        = .error .DimensionMismatch :=
  ⟨((setColumn_rules ⟨[]⟩ "a" [.int 1, .int 2]).1 rfl).1,
   (setColumn_rules ⟨[("a", [.int 1, .int 2])]⟩ "b" [.int 3, .int 4]).2.1
     (by decide) (by decide),
   (setColumn_rules ⟨[("a", [.int 1, .int 2])]⟩ "b" [.int 3]).2.2
     (by decide) (by decide)⟩

theorem mem_setCol (cols : List (String × List Value)) (name : String)
    (vals : List Value) (c : String × List Value)
    (h : c ∈ setCol cols name vals) : c = (name, vals) ∨ c ∈ cols := by
  induction cols with
  | nil =>
    simp [setCol] at h
    exact Or.inl h
  | cons c0 cs ih =>
    by_cases h0 : c0.1 = name
    · simp [setCol, h0] at h
      rcases h with h | h
      · exact Or.inl h
      · exact Or.inr (List.mem_cons_of_mem _ h)
    · simp [setCol, h0] at h
      rcases h with h | h
      · subst h
        exact Or.inr (List.mem_cons_self _ _)
      · rcases ih h with h2 | h2
        · exact Or.inl h2
        · exact Or.inr (List.mem_cons_of_mem _ h2)

theorem rowCount_setCol (c0 : String × List Value)
    (cs : List (String × List Value)) (name : String) (vals : List Value)
    (h : vals.length = (Table.mk (c0 :: cs)).rowCount) :
    (Table.mk (setCol (c0 :: cs) name vals)).rowCount
      = (Table.mk (c0 :: cs)).rowCount := by
  by_cases h0 : c0.1 = name
  · simp [setCol, h0, Table.rowCount] at h ⊢
    omega
  · simp [setCol, h0, Table.rowCount]

theorem setColumn_ok_rect (t : Table) (name : String) (vals : List Value)
    (t2 : Table) (ht : t.rect) (h : t.setColumn name vals = .ok t2) :
    t2.rect := by
  obtain ⟨cols⟩ := t
  cases cols with
  | nil =>
    simp [Table.setColumn] at h
    subst h
    intro c hc
    simp at hc
    simp [hc, Table.rowCount]
  | cons c0 cs =>
    by_cases hlen : vals.length = (Table.mk (c0 :: cs)).rowCount
    · simp [Table.setColumn, hlen] at h
      subst h
      intro c hc
      rcases mem_setCol _ _ _ _ hc with h2 | h2
      · rw [rowCount_setCol c0 cs name vals hlen, h2]
        simpa using hlen
      · rw [rowCount_setCol c0 cs name vals hlen]
        exact ht c h2
    · simp [Table.setColumn, hlen] at h

theorem appendRow_ok_rect (t : Table) (vals : List Value) (t2 : Table)
    (ht : t.rect) (h : t.appendRow vals = .ok t2) : t2.rect := by
  obtain ⟨cols⟩ := t
  by_cases hlen : vals.length = cols.length
  · simp [Table.appendRow, hlen] at h
    subst h
    cases cols with
    | nil =>
      cases vals with
      | nil => intro c hc; simp at hc
      | cons v vs => simp at hlen
    | cons c0 cs =>
      cases vals with
      | nil => simp at hlen
      | cons v vs =>
        intro c hc
        have hrow : (Table.mk (((c0 :: cs).zip (v :: vs)).map
            (fun p => (p.1.1, p.1.2 ++ [p.2])))).rowCount
              = c0.2.length + 1 := by
          simp [Table.rowCount, List.zip_cons_cons]
        rw [hrow]
        simp only [List.mem_map] at hc
        obtain ⟨p, hp, hpc⟩ := hc
        have hmem := List.of_mem_zip hp
        have hlenp : p.1.2.length = (Table.mk (c0 :: cs)).rowCount :=
          ht p.1 hmem.1
        have h0 : c0.2.length = (Table.mk (c0 :: cs)).rowCount :=
          ht c0 (List.mem_cons_self c0 cs)
        rw [← hpc]
        simp only [List.length_append, List.length_singleton]
        omega
  · simp [Table.appendRow, hlen] at h

theorem applyOp_rect (t : Table) (op : Op) (ht : t.rect) :
    (t.applyOp op).rect := by
  cases op with
  | set n vs =>
    simp only [Table.applyOp]
    cases h : t.setColumn n vs with
    | ok t2 => exact setColumn_ok_rect t n vs t2 ht h
    | error e => exact ht
  | append vs =>
    simp only [Table.applyOp]
    cases h : t.appendRow vs with
    | ok t2 => exact appendRow_ok_rect t vs t2 ht h
    | error e => exact ht

/-- C1: rectangularity is an invariant: starting from any rectangular table
(in particular the empty one), after any sequence of `setColumn` and
`appendRow` operations all columns have equal length; moreover any
successful `setColumn` leaves every column with length exactly the row
count it establishes. -/
theorem run_preserves_rect (t : Table) (ops : List Op) (ht : t.rect) :
    (t.run ops).rect ∧
    (∀ name vals t2, t.setColumn name vals = .ok t2 →
      (t.cols = [] → t2.rowCount = vals.length) ∧
      ∀ c ∈ t2.cols, c.2.length = t2.rowCount) := by
  constructor
  · unfold Table.run
    induction ops generalizing t with
    | nil => exact ht
    | cons op ops ih => exact ih (t.applyOp op) (applyOp_rect t op ht)
  · intro name vals t2 h
    refine ⟨?_, setColumn_ok_rect t name vals t2 ht h⟩
    intro hnil
    obtain ⟨cols⟩ := t
    simp only at hnil
    subst hnil
    simp [Table.setColumn] at h
    subst h
    rfl

/-- Closed witness for `run_preserves_rect`: a concrete operation sequence
from the empty table stays rectangular. -/
theorem run_preserves_rect_witness :
    ((Table.mk []).run
      [.set "name" [.text "alpha", .text "beta"], .set "mass" [.dec 21 1],
       .set "mass" [.dec 21 1, .dec 23 1], .append [.text "gamma", .dec 42 1],
       .append [.int 1]]).rect :=
  (run_preserves_rect ⟨[]⟩
    [.set "name" [.text "alpha", .text "beta"], .set "mass" [.dec 21 1],
     .set "mass" [.dec 21 1, .dec 23 1], .append [.text "gamma", .dec 42 1],
     .append [.int 1]] (by decide)).1

theorem lookupCol_mem (cols : List (String × List Value)) (name : String)
    (vs : List Value) (h : lookupCol cols name = some vs) :
    (name, vs) ∈ cols := by
  induction cols with
  | nil => simp [lookupCol] at h
  | cons c cs ih =>
    by_cases h0 : c.1 = name
    · simp [lookupCol, h0] at h
      subst h
      rw [← h0]
      exact List.mem_cons_self _ _
    · simp [lookupCol, h0] at h
      exact List.mem_cons_of_mem _ (ih h)

theorem selectCols_all_found (cols : List (String × List Value))
    (names : List String) (h : ∀ n ∈ names, lookupCol cols n ≠ none) :
    ∃ cs, selectCols cols names = some cs ∧ cs.map Prod.fst = names ∧
      ∀ p ∈ cs, lookupCol cols p.1 = some p.2 := by
  induction names with
  | nil => exact ⟨[], rfl, rfl, by simp⟩
  | cons n ns ih =>
    obtain ⟨vs, hvs⟩ : ∃ vs, lookupCol cols n = some vs := by
      cases hl : lookupCol cols n with
      | none => exact absurd hl (h n (List.mem_cons_self _ _))
      | some vs => exact ⟨vs, rfl⟩
    obtain ⟨cs, hcs, hfst, hmem⟩ :=
      ih (fun m hm => h m (List.mem_cons_of_mem _ hm))
    refine ⟨(n, vs) :: cs, ?_, by simp [hfst], ?_⟩
    · simp [selectCols, hvs, hcs]
    · intro p hp
      rcases List.mem_cons.mp hp with hp | hp
      · subst hp
        simpa using hvs
      · exact hmem p hp

theorem selectCols_missing (cols : List (String × List Value))
    (names : List String) (n : String) (hn : n ∈ names)
    (h : lookupCol cols n = none) : selectCols cols names = none := by
  induction names with
  | nil => simp at hn
  | cons m ms ih =>
    rcases List.mem_cons.mp hn with hn | hn
    · subst hn
      simp [selectCols, h]
    · cases hl : lookupCol cols m with
      | none => simp [selectCols, hl]
      | some vs => simp [selectCols, hl, ih hn]

/-- C9: `getColumns(names)` returns a narrowed table holding exactly the
requested columns in the requested order, each with the original table's
values and (for a rectangular table) the original row count, and fails with
`NotFound` when any requested name is absent; `getColumn(name)` returns the
named column's sequence and fails with `NotFound` when the name is absent. -/
theorem getColumns_narrow (t : Table) (names : List String) :
    ((∀ n ∈ names, lookupCol t.cols n ≠ none) →
      ∃ t2, t.getColumns names = .ok t2 ∧
        t2.cols.map Prod.fst = names ∧
        (∀ p ∈ t2.cols, lookupCol t.cols p.1 = some p.2) ∧
        (t.rect → ∀ p ∈ t2.cols, p.2.length = t.rowCount) ∧
        (t.rect → names ≠ [] → t2.rowCount = t.rowCount)) ∧
    ((∃ n ∈ names, lookupCol t.cols n = none) →
      t.getColumns names = .error .NotFound) ∧
    (∀ name vs, lookupCol t.cols name = some vs →
      t.getColumn name = .ok vs) ∧
    (∀ name, lookupCol t.cols name = none →
      t.getColumn name = .error .NotFound) := by
  refine ⟨?_, ?_, ?_, ?_⟩
  · intro h
    obtain ⟨cs, hcs, hfst, hmem⟩ := selectCols_all_found t.cols names h
    refine ⟨⟨cs⟩, ?_, hfst, hmem, ?_, ?_⟩
    · simp [Table.getColumns, Table.getColumnsS, hcs]
    · intro hrect p hp
      exact hrect p (lookupCol_mem _ _ _ (hmem p hp))
    · intro hrect hne
      cases hcs0 : cs with
      | nil =>
        subst hcs0
        simp at hfst
        exact absurd hfst hne
      | cons p ps =>
        have hp : p.2.length = t.rowCount := by
          refine hrect p (lookupCol_mem _ _ _ (hmem p ?_))
          rw [hcs0]
          exact List.mem_cons_self _ _
        simp [Table.rowCount, hcs0, hp]
  · rintro ⟨n, hn, hnone⟩
    simp [Table.getColumns, Table.getColumnsS,
      selectCols_missing t.cols names n hn hnone]
  · intro name vs h
    simp [Table.getColumn, Table.getColumnS, h]
  · intro name h
    simp [Table.getColumn, Table.getColumnS, h]

/-- Closed witness for `getColumns_narrow`: selecting two of three columns
of a concrete table, and a missing-name failure. -/
theorem getColumns_narrow_witness :
    (∃ t2, Table.getColumns
        ⟨[("name", [.text "alpha"]), ("mass", [.dec 21 1]),
          ("temp", [.int 6000])]⟩ ["mass", "temp"] = .ok t2 ∧
      t2.cols.map Prod.fst = ["mass", "temp"] ∧
      (∀ p ∈ t2.cols, lookupCol (Table.mk [("name", [.text "alpha"]),
          ("mass", [.dec 21 1]), ("temp", [.int 6000])]).cols p.1
        = some p.2) ∧
      ((Table.mk [("name", [.text "alpha"]), ("mass", [.dec 21 1]),
          ("temp", [.int 6000])]).rect →
        ∀ p ∈ t2.cols, p.2.length = (Table.mk [("name", [.text "alpha"]),
          ("mass", [.dec 21 1]), ("temp", [.int 6000])]).rowCount) ∧
      ((Table.mk [("name", [.text "alpha"]), ("mass", [.dec 21 1]),
          ("temp", [.int 6000])]).rect → (["mass", "temp"] : List String) ≠ [] →
        t2.rowCount = (Table.mk [("name", [.text "alpha"]),
          ("mass", [.dec 21 1]), ("temp", [.int 6000])]).rowCount)) ∧
    Table.getColumns ⟨[("name", [.text "alpha"]), ("mass", [.dec 21 1]),
        ("temp", [.int 6000])]⟩ ["radius"] = .error .NotFound :=
  ⟨(getColumns_narrow ⟨[("name", [.text "alpha"]), ("mass", [.dec 21 1]),
      ("temp", [.int 6000])]⟩ ["mass", "temp"]).1 (by decide),
   (getColumns_narrow ⟨[("name", [.text "alpha"]), ("mass", [.dec 21 1]),
      ("temp", [.int 6000])]⟩ ["radius"]).2.1 ⟨"radius", by decide, by decide⟩⟩

/-- C4: on a file whose rows have unequal lengths, the strict numeric
reader fails with `MalformedInput`, while the tolerant reader with a
declared missing-value token never fails: it returns one row per input
line, every row padded to the grid width, with the tail cells of short rows
carrying the explicit missing marker. -/
theorem strict_fails_tolerant_pads (file : List (List String)) (miss : String)
    (h : ∃ r1 ∈ file, ∃ r2 ∈ file, r1.length ≠ r2.length) :
    strictRead file = .error .MalformedInput ∧
    (tolerantRead miss file).length = file.length ∧
    (∀ row ∈ tolerantRead miss file, row.length = gridWidth file) ∧
    (∀ (k j : Nat) (r : List String), file[k]? = some r → r.length ≤ j →
      j < gridWidth file →
      ∃ row, (tolerantRead miss file)[k]? = some row ∧
        row[j]? = some .missing) := by
  obtain ⟨r1, hr1, r2, hr2, hne⟩ := h
  refine ⟨?_, by simp [tolerantRead], ?_, ?_⟩
  · cases hf : file with
    | nil =>
      subst hf
      simp at hr1
    | cons r0 rest =>
      have hall : ¬ ((r0 :: rest).all (fun r => r.length = r0.length)) := by
        intro hall
        rw [List.all_eq_true] at hall
        have h1 := hall r1 (hf ▸ hr1)
        have h2 := hall r2 (hf ▸ hr2)
        simp only [decide_eq_true_eq] at h1 h2
        omega
      simp [strictRead, hall]
  · intro row hrow
    simp only [tolerantRead, List.mem_map] at hrow
    obtain ⟨r, _, hr⟩ := hrow
    rw [← hr]
    simp
  · intro k j r hk hle hlt
    refine ⟨(List.range (gridWidth file)).map (fun j2 =>
      if h2 : j2 < r.length then
        let s := r.get ⟨j2, h2⟩
        if s = miss then .missing
        else
          match parseToken s with
          | .int n => .int n
          | .dec m e => .dec m e
          | _ => .missing
      else .missing), ?_, ?_⟩
    · simp only [tolerantRead, List.getElem?_map, hk]
      rfl
    · have hj : ¬ (j < r.length) := by omega
      rw [List.getElem?_map]
      rw [List.getElem?_range hlt]
      simp [hj]

/-- Closed witness for `strict_fails_tolerant_pads` on a concrete irregular
file. -/
theorem strict_fails_tolerant_pads_witness :
    strictRead [["1", "2"], ["3"]] = .error .MalformedInput ∧
    (tolerantRead "null" [["1", "2"], ["3"]]).length
      = ([["1", "2"], ["3"]] : List (List String)).length ∧
    (∀ row ∈ tolerantRead "null" [["1", "2"], ["3"]],
      row.length = gridWidth [["1", "2"], ["3"]]) ∧
    (∀ (k j : Nat) (r : List String),
      (([["1", "2"], ["3"]] : List (List String)))[k]? = some r →
      r.length ≤ j → j < gridWidth [["1", "2"], ["3"]] →
      ∃ row, (tolerantRead "null" [["1", "2"], ["3"]])[k]? = some row ∧
        row[j]? = some .missing) :=
  strict_fails_tolerant_pads [["1", "2"], ["3"]] "null"
    ⟨["1", "2"], by decide, ["3"], by decide, by decide⟩

/-! ### Token round-trip lemmas -/

theorem charVal_digitChar : ∀ d, d < 10 → charVal (digitChar d) = d := by decide

theorem digitChar_isDigit : ∀ d, d < 10 → (digitChar d).isDigit = true := by
  decide

theorem foldl_parse (cs : List Char) (acc : Nat) :
    cs.foldl (fun a c => a * 10 + charVal c) acc
      = acc * 10 ^ cs.length + parseNatCore cs := by
  induction cs generalizing acc with
  | nil => simp [parseNatCore]
  | cons c cs ih =>
    have hr : parseNatCore (c :: cs)
        = (0 * 10 + charVal c) * 10 ^ cs.length + parseNatCore cs := by
      show cs.foldl _ (0 * 10 + charVal c) = _
      exact ih _
    calc (c :: cs).foldl (fun a c => a * 10 + charVal c) acc
        = cs.foldl (fun a c => a * 10 + charVal c) (acc * 10 + charVal c) := rfl
      _ = (acc * 10 + charVal c) * 10 ^ cs.length + parseNatCore cs := ih _
      _ = acc * 10 ^ (c :: cs).length + parseNatCore (c :: cs) := by
          rw [hr, List.length_cons]
          ring

theorem parseNatCore_append (a b : List Char) :
    parseNatCore (a ++ b) = parseNatCore a * 10 ^ b.length + parseNatCore b := by
  show (a ++ b).foldl _ 0 = _
  rw [List.foldl_append]
  exact foldl_parse b _

theorem parseNatCore_renderNatAux (fuel : Nat) :
    ∀ n, n ≤ fuel → parseNatCore (renderNatAux fuel n) = n := by
  induction fuel with
  | zero =>
    intro n hn
    have h0 : n = 0 := by omega
    subst h0
    rfl
  | succ fuel ih =>
    intro n hn
    by_cases h0 : n = 0
    · subst h0
      rfl
    · show parseNatCore (renderNatAux (fuel + 1) n) = n
      rw [renderNatAux, if_neg h0, parseNatCore_append]
      have hd : n % 10 < 10 := Nat.mod_lt _ (by omega)
      have hone : parseNatCore [digitChar (n % 10)] = n % 10 := by
        show 0 * 10 + charVal (digitChar (n % 10)) = n % 10
        rw [charVal_digitChar _ hd]
        omega
      rw [hone, ih (n / 10) (by omega)]
      simp only [List.length_cons, List.length_nil, pow_one, pow_zero]
      omega

theorem parseNatCore_renderNat (n : Nat) : parseNatCore (renderNat n) = n := by
  by_cases h : n = 0
  · subst h
    rfl
  · rw [renderNat, if_neg h]
    exact parseNatCore_renderNatAux n n (le_refl n)

theorem renderNatAux_all_digits (fuel : Nat) :
    ∀ n, (renderNatAux fuel n).all Char.isDigit = true := by
  induction fuel with
  | zero => intro n; rfl
  | succ fuel ih =>
    intro n
    by_cases h0 : n = 0
    · subst h0
      rfl
    · rw [renderNatAux, if_neg h0, List.all_append, ih (n / 10)]
      have hd : n % 10 < 10 := Nat.mod_lt _ (by omega)
      simp [digitChar_isDigit _ hd]

theorem renderNat_all_digits (n : Nat) :
    (renderNat n).all Char.isDigit = true := by
  by_cases h : n = 0
  · subst h
    rfl
  · rw [renderNat, if_neg h]
    exact renderNatAux_all_digits n n

theorem renderNat_ne_nil (n : Nat) : renderNat n ≠ [] := by
  by_cases h : n = 0
  · subst h
    simp [renderNat]
  · rw [renderNat, if_neg h]
    cases fuel : n with
    | zero => exact absurd fuel h
    | succ f =>
      rw [renderNatAux, if_neg (fuel ▸ h)]
      simp

theorem isDigits_of (cs : List Char) (h1 : cs ≠ [])
    (h2 : cs.all Char.isDigit = true) : isDigits cs = true := by
  cases cs with
  | nil => exact absurd rfl h1
  | cons c rest => simp [isDigits, h2]

theorem isDigits_renderNat (n : Nat) : isDigits (renderNat n) = true :=
  isDigits_of _ (renderNat_ne_nil n) (renderNat_all_digits n)

theorem stripSign_digit_head (c : Char) (rest : List Char)
    (h : c.isDigit = true) : stripSign (c :: rest) = (false, c :: rest) := by
  have hc : ¬ (c = '-') := by
    intro h2
    subst h2
    exact absurd h (by decide)
  simp [stripSign, hc]

theorem stripSign_all_digits (cs : List Char) (h1 : cs ≠ [])
    (h2 : cs.all Char.isDigit = true) : stripSign cs = (false, cs) := by
  cases cs with
  | nil => exact absurd rfl h1
  | cons c rest =>
    rw [List.all_cons, Bool.and_eq_true] at h2
    exact stripSign_digit_head c rest h2.1

theorem no_dot_of_all_digits (cs : List Char)
    (h : cs.all Char.isDigit = true) : '.' ∉ cs := by
  intro hmem
  rw [List.all_eq_true] at h
  exact absurd (h _ hmem) (by decide)

theorem splitDot_append (ip fp : List Char) (h1 : ip.all Char.isDigit = true)
    (h2 : '.' ∉ fp) : splitDot (ip ++ '.' :: fp) = some (ip, fp) := by
  induction ip with
  | nil =>
    show splitDot ('.' :: fp) = _
    rw [splitDot, if_pos rfl, if_neg h2]
  | cons c cs ih =>
    rw [List.all_cons, Bool.and_eq_true] at h1
    have hc : ¬ (c = '.') := by
      intro h
      subst h
      exact absurd h1.1 (by decide)
    show splitDot (c :: (cs ++ '.' :: fp)) = _
    rw [splitDot, if_neg hc, ih h1.2]
    rfl

theorem isDigits_false_of_dot (cs : List Char) (h : '.' ∈ cs) :
    isDigits cs = false := by
  have hall : cs.all Char.isDigit = false := by
    cases hb : cs.all Char.isDigit with
    | false => rfl
    | true =>
      have hdig := List.all_eq_true.mp hb _ h
      exact absurd hdig (by decide)
  simp [isDigits, hall]

theorem classifyBody_digits (s : String) (neg : Bool) (body : List Char)
    (h : isDigits body = true) :
    classifyBody s neg body = .int (applySign neg (parseNatCore body)) := by
  simp [classifyBody, h]

theorem classifyBody_dec (s : String) (neg : Bool) (ip fp : List Char)
    (hip : ip.all Char.isDigit = true) (hipne : ip ≠ [])
    (hfp : fp.all Char.isDigit = true) (hfpne : fp ≠ []) :
    classifyBody s neg (ip ++ '.' :: fp)
      = .dec (applySign neg
          (parseNatCore ip * 10 ^ fp.length + parseNatCore fp)) fp.length := by
  have hdot : '.' ∈ ip ++ '.' :: fp := by simp
  rw [classifyBody]
  rw [isDigits_false_of_dot _ hdot]
  rw [splitDot_append ip fp hip (no_dot_of_all_digits fp hfp)]
  simp [isDigits_of ip hipne hip, isDigits_of fp hfpne hfp]

theorem parseToken_renderInt (n : Int) : parseToken ⟨renderInt n⟩ = .int n := by
  by_cases hn : n < 0
  · have hr : renderInt n = '-' :: renderNat n.natAbs := by
      rw [renderInt, if_pos hn]
    rw [parseToken]
    show classifyBody _ (stripSign (renderInt n)).1 (stripSign (renderInt n)).2 = _
    rw [hr]
    have hs : stripSign ('-' :: renderNat n.natAbs)
        = (true, renderNat n.natAbs) := by simp [stripSign]
    rw [hs, classifyBody_digits _ _ _ (isDigits_renderNat _),
      parseNatCore_renderNat]
    have ha : applySign true n.natAbs = n := by
      rw [applySign, if_pos rfl]
      omega
    rw [ha]
  · have hr : renderInt n = renderNat n.natAbs := by
      rw [renderInt, if_neg hn]
    rw [parseToken]
    show classifyBody _ (stripSign (renderInt n)).1 (stripSign (renderInt n)).2 = _
    rw [hr, stripSign_all_digits _ (renderNat_ne_nil _) (renderNat_all_digits _),
      classifyBody_digits _ _ _ (isDigits_renderNat _), parseNatCore_renderNat]
    have ha : applySign false n.natAbs = n := by
      rw [applySign, if_neg (by simp)]
      omega
    rw [ha]

theorem parseNatCore_replicate_zero (j : Nat) :
    parseNatCore (List.replicate j '0') = 0 := by
  induction j with
  | zero => rfl
  | succ j ih =>
    show List.foldl _ (0 * 10 + charVal '0') (List.replicate j '0') = 0
    exact ih

theorem parseNatCore_padZeros (cs : List Char) (k : Nat) :
    parseNatCore (padZeros cs k) = parseNatCore cs := by
  rw [padZeros, parseNatCore_append, parseNatCore_replicate_zero]
  omega

theorem all_digits_padZeros (cs : List Char) (k : Nat)
    (h : cs.all Char.isDigit = true) :
    (padZeros cs k).all Char.isDigit = true := by
  rw [padZeros, List.all_append, h, Bool.and_true, List.all_eq_true]
  intro x hx
  rw [List.eq_of_mem_replicate hx]
  decide

theorem parseToken_renderDec (m : Int) (e : Nat) (he : 0 < e) :
    parseToken ⟨renderDec m e⟩ = .dec m e := by
  have hall : (padZeros (renderNat m.natAbs) (e + 1)).all Char.isDigit = true :=
    all_digits_padZeros _ _ (renderNat_all_digits _)
  have hlen : e + 1 ≤ (padZeros (renderNat m.natAbs) (e + 1)).length := by
    rw [padZeros, List.length_append, List.length_replicate]
    omega
  set ds := padZeros (renderNat m.natAbs) (e + 1) with hds
  set ip := ds.take (ds.length - e) with hip
  set fp := ds.drop (ds.length - e) with hfp
  have hipfp : ip ++ fp = ds := List.take_append_drop _ _
  have hiplen : ip.length = ds.length - e := by
    rw [hip, List.length_take]
    omega
  have hfplen : fp.length = e := by
    rw [hfp, List.length_drop]
    omega
  have hipd : ip.all Char.isDigit = true := by
    rw [List.all_eq_true] at hall ⊢
    exact fun x hx => hall x (List.take_subset _ _ hx)
  have hfpd : fp.all Char.isDigit = true := by
    rw [List.all_eq_true] at hall ⊢
    exact fun x hx => hall x (List.drop_subset _ _ hx)
  have hipne : ip ≠ [] :=
    List.ne_nil_of_length_pos (by omega)
  have hfpne : fp ≠ [] :=
    List.ne_nil_of_length_pos (by omega)
  have hmag : parseNatCore ip * 10 ^ fp.length + parseNatCore fp = m.natAbs := by
    rw [← parseNatCore_append, hipfp, hds, parseNatCore_padZeros,
      parseNatCore_renderNat]
  have hbody : renderDec m e
      = (if m < 0 then ['-'] else []) ++ ip ++ '.' :: fp := rfl
  rw [parseToken]
  show classifyBody _ (stripSign (renderDec m e)).1
    (stripSign (renderDec m e)).2 = _
  rw [hbody]
  by_cases hm : m < 0
  · rw [if_pos hm]
    have hcons : (['-'] ++ ip) ++ '.' :: fp = '-' :: (ip ++ '.' :: fp) := by
      simp
    rw [hcons]
    have hs : stripSign ('-' :: (ip ++ '.' :: fp))
        = (true, ip ++ '.' :: fp) := by simp [stripSign]
    rw [hs, classifyBody_dec _ _ _ _ hipd hipne hfpd hfpne, hmag, hfplen]
    have ha : applySign true m.natAbs = m := by
      rw [applySign, if_pos rfl]
      omega
    rw [ha]
  · rw [if_neg hm]
    have hcons : ([] ++ ip) ++ '.' :: fp = ip ++ '.' :: fp := by simp
    rw [hcons]
    obtain ⟨c, rest, hc⟩ : ∃ c rest, ip = c :: rest := by
      cases hi : ip with
      | nil => exact absurd hi hipne
      | cons c rest => exact ⟨c, rest, rfl⟩
    have hchead : c.isDigit = true := by
      rw [hc, List.all_cons, Bool.and_eq_true] at hipd
      exact hipd.1
    have hs : stripSign (ip ++ '.' :: fp) = (false, ip ++ '.' :: fp) := by
      rw [hc]
      exact stripSign_digit_head _ _ hchead
    rw [hs, classifyBody_dec _ _ _ _ hipd hipne hfpd hfpne, hmag, hfplen]
    have ha : applySign false m.natAbs = m := by
      rw [applySign, if_neg (by simp)]
      omega
    rw [ha]

theorem mk_ne_empty (cs : List Char) (h : cs ≠ []) : String.mk cs ≠ "" := by
  intro hc
  exact h (congrArg String.data hc)

theorem renderDec_ne_nil (m : Int) (e : Nat) : renderDec m e ≠ [] := by
  intro h
  have hbody : renderDec m e
      = (if m < 0 then ['-'] else [])
        ++ (padZeros (renderNat m.natAbs) (e + 1)).take
            ((padZeros (renderNat m.natAbs) (e + 1)).length - e)
        ++ '.' :: (padZeros (renderNat m.natAbs) (e + 1)).drop
            ((padZeros (renderNat m.natAbs) (e + 1)).length - e) := rfl
  rw [hbody] at h
  simp at h

theorem renderInt_ne_nil (n : Int) : renderInt n ≠ [] := by
  rw [renderInt]
  by_cases h : n < 0
  · rw [if_pos h]
    simp
  · rw [if_neg h]
    exact renderNat_ne_nil _

/-- Round trip of a single cell: parsing the rendered form of any
well-formed value gives back the value. -/
theorem parseCell_renderValue (v : Value) (h : wfValue v = true) :
    parseCell (renderValue v) = v := by
  cases v with
  | int n =>
    rw [renderValue, parseCell,
      if_neg (mk_ne_empty _ (renderInt_ne_nil n))]
    exact parseToken_renderInt n
  | dec m e =>
    have he : 0 < e := by
      rw [wfValue] at h
      exact of_decide_eq_true h
    rw [renderValue, parseCell,
      if_neg (mk_ne_empty _ (renderDec_ne_nil m e))]
    exact parseToken_renderDec m e he
  | text s =>
    rw [wfValue, Bool.and_eq_true] at h
    rw [renderValue, parseCell, if_neg (of_decide_eq_true h.1)]
    exact of_decide_eq_true h.2
  | missing => rfl

/-- C3: writing a rectangular table of well-formed cells to the delimited
format and reading the output back yields exactly the same table (same
column names, same row count, same cell values); moreover the written file
has the column names as its header line and one row per line in row
order. -/
theorem write_read_roundTrip (t : Table) (h1 : t.rect)
    (h2 : ∀ c ∈ t.cols, ∀ v ∈ c.2, wfValue v = true) :
    Table.read t.write = .ok t ∧
    t.write.head? = some (t.cols.map Prod.fst) ∧
    t.write.length = t.rowCount + 1 := by
  obtain ⟨cols⟩ := t
  refine ⟨?_, rfl, by simp [Table.write]⟩
  have hg : ((List.range (Table.mk cols).rowCount).map
      (fun i => cols.map (fun c => renderValue (c.2.getD i .missing)))).all
      (fun r => r.length = (cols.map Prod.fst).length) = true := by
    rw [List.all_eq_true]
    intro r hr
    rw [List.mem_map] at hr
    obtain ⟨i, _, hi⟩ := hr
    subst hi
    simp
  show Table.read (Table.write ⟨cols⟩) = Except.ok ⟨cols⟩
  rw [Table.write]
  rw [Table.read, if_pos hg]
  have hcols : (List.range ((cols.map Prod.fst).length)).map
      (fun j => ((cols.map Prod.fst).getD j "",
        ((List.range (Table.mk cols).rowCount).map
          (fun i => cols.map (fun c => renderValue (c.2.getD i .missing)))).map
          (fun r => parseCell (r.getD j "")))) = cols := by
    apply List.ext_getElem
    · simp
    · intro j hj1 hj2
      have hjm : j < (cols.map Prod.fst).length := by simpa using hj2
      simp only [List.getElem_map, List.getElem_range]
      rw [← Prod.mk.eta (p := cols[j])]
      have hfst : (cols.map Prod.fst).getD j "" = cols[j].1 := by
        rw [List.getD_eq_getElem _ _ hjm, List.getElem_map]
      have hmemj : cols[j] ∈ cols := List.getElem_mem hj2
      have hjlen : (cols[j].2).length = (Table.mk cols).rowCount := h1 _ hmemj
      have hsnd : ((List.range (Table.mk cols).rowCount).map
          (fun i => cols.map (fun c => renderValue (c.2.getD i .missing)))).map
          (fun r => parseCell (r.getD j "")) = cols[j].2 := by
        apply List.ext_getElem
        · simp [hjlen]
        · intro i hi1 hi2
          simp only [List.getElem_map, List.getElem_range]
          have hjm2 : j < (cols.map
              (fun c => renderValue (c.2.getD i .missing))).length := by
            simpa using hj2
          rw [List.getD_eq_getElem _ _ hjm2, List.getElem_map]
          rw [List.getD_eq_getElem _ _ hi2]
          exact parseCell_renderValue _
            (h2 _ hmemj _ (List.getElem_mem hi2))
      rw [hfst, hsnd]
  rw [hcols]

/-- Closed witness for `write_read_roundTrip` on a concrete table with an
integer, a decimal, a text and a missing cell. -/
theorem write_read_roundTrip_witness :
    Table.read
        (Table.write ⟨[("a", [.int 1, .dec 25 1]), ("b", [.text "x", .missing])]⟩)
      = .ok ⟨[("a", [.int 1, .dec 25 1]), ("b", [.text "x", .missing])]⟩ ∧
    (Table.write
        ⟨[("a", [.int 1, .dec 25 1]), ("b", [.text "x", .missing])]⟩).head?
      = some ((Table.mk [("a", [.int 1, .dec 25 1]),
          ("b", [.text "x", .missing])]).cols.map Prod.fst) ∧
    (Table.write
        ⟨[("a", [.int 1, .dec 25 1]), ("b", [.text "x", .missing])]⟩).length
      = (Table.mk [("a", [.int 1, .dec 25 1]),
          ("b", [.text "x", .missing])]).rowCount + 1 :=
  write_read_roundTrip
    ⟨[("a", [.int 1, .dec 25 1]), ("b", [.text "x", .missing])]⟩
    (by decide) (by decide)

end DataWrangling
